import Mathlib

/-!
Shallow embedding of `src/dashboard.py` (HRDashboard): data loading with
derived classification labels, share distributions, cross-company averages,
top-N location rankings, and the benchmark composition performed by `main`.
Pandas operations are modelled over Lean lists: `Option String` models an
object column entry that may be NaN, `ℚ` models float shares exactly, and
`Except` models Python exceptions escaping `main`.
-/

namespace HRDashboard

/-- One row of the raw CSV: the columns the dashboard reads. -/
structure Posting where
  company : String
  classification : String
  location : String
deriving DecidableEq

/-- One row after `load_data`: the raw columns plus the derived
`Predicted domain` / `Predicted field` / `Predicted title` labels.
A label is `none` when the pandas expression produced NaN. -/
structure LoadedRow where
  company : String
  classification : String
  location : String
  domain : Option String
  field : Option String
  title : Option String
deriving DecidableEq

/-- Python `str.split("/")` on the character list: `""` splits to `[""]`,
separators at the ends produce empty segments. -/
def splitSlash : List Char → List (List Char)
  | [] => [[]]
  | c :: cs =>
    if c = '/' then [] :: splitSlash cs
    else
      match splitSlash cs with
      | [] => [[c]]
      | s :: ss => (c :: s) :: ss

/-- pandas `.str.split("/")` of a classification string. -/
def pySplit (s : String) : List String :=
  (splitSlash s.data).map (fun l => String.mk l)

/-- Python `str.title()`: every letter that follows a non-letter is upper-cased,
every letter that follows a letter is lower-cased. -/
def pyTitleAux : Bool → List Char → List Char
  | _, [] => []
  | prev, c :: cs =>
    if c.isAlpha then (if prev then c.toLower else c.toUpper) :: pyTitleAux true cs
    else c :: pyTitleAux false cs

/-- pandas `.str.title()`. -/
def pyTitle (s : String) : String := String.mk (pyTitleAux false s.data)

/-- pandas `.str.replace("_", " ")` for the literal one-character pattern. -/
def underscoreToSpace (s : String) : String :=
  String.mk (s.data.map fun c => if c = '_' then ' ' else c)

/-- The label transform `load_data` applies to each classification segment. -/
def fmtLabel (s : String) : String := pyTitle (underscoreToSpace s)

/-- `load_data`, one row: split `Predicted Class` on `/`, take segments 0, 1, 2
(pandas `.str[i]` yields NaN when the segment is missing) and format each. -/
def loadRow (p : Posting) : LoadedRow :=
  { company := p.company
    classification := p.classification
    location := p.location
    domain := ((pySplit p.classification)[0]?).map fmtLabel
    field := ((pySplit p.classification)[1]?).map fmtLabel
    title := ((pySplit p.classification)[2]?).map fmtLabel }

/-- `load_data` over the whole CSV: every row is kept. -/
def load_data (ps : List Posting) : List LoadedRow := ps.map loadRow

/-- Distinct values of a list in order of first occurrence: the order in which
the pandas value-counts hash table and `Series.unique` report values. -/
def firstOccs {α : Type} [DecidableEq α] : List α → List α
  | [] => []
  | x :: xs => x :: (firstOccs xs).filter (fun y => decide (y ≠ x))

/-- pandas `Series.value_counts(sort=True)`: (value, count) pairs sorted by
descending count, ties kept in first-occurrence order (stable sort). -/
def valueCounts {α : Type} [DecidableEq α] (xs : List α) : List (α × Nat) :=
  List.insertionSort (fun p q => q.2 ≤ p.2)
    ((firstOccs xs).map (fun v => (v, xs.count v)))

/-- pandas `Series.value_counts(normalize=True)`: counts divided by the total
number of counted values. -/
def valueCountsNorm {α : Type} [DecidableEq α] (xs : List α) : List (α × ℚ) :=
  (valueCounts xs).map (fun p => (p.1, (p.2 : ℚ) / (xs.length : ℚ)))

/-- The non-null values of an object column, in row order
(pandas drops NaN before counting). -/
def colVals (col : LoadedRow → Option String) (rows : List LoadedRow) : List String :=
  rows.filterMap col

/-- `domain_share(df_, name)`: normalized share of each predicted domain in the
given slice, tagged with the group label. -/
def domain_share (rows : List LoadedRow) (name : String) : List (String × ℚ × String) :=
  (valueCountsNorm (colVals (fun r => r.domain) rows)).map (fun p => (p.1, p.2, name))

/-- `top_locations(df_, name, n)`: `value_counts().nlargest(n)` over the
Location column, tagged with the group label. -/
def top_locations (rows : List LoadedRow) (name : String) (n : Nat := 5) :
    List (String × Nat × String) :=
  ((valueCounts (rows.map (fun r => r.location))).take n).map (fun p => (p.1, p.2, name))

deriving instance DecidableEq for Except

/-- pandas `Series.idxmax` on a (label, count) series: label of the first
maximal count; raises on an empty series. -/
def idxmax {α : Type} : List (α × Nat) → Except String α
  | [] => Except.error "attempt to get argmax of an empty sequence"
  | p :: ps => Except.ok (ps.foldl (fun best q => if best.2 < q.2 then q else best) p).1

/-- The distinct companies of a slice (`groupby("Company")` group keys). -/
def companiesOf (rows : List LoadedRow) : List String :=
  firstOccs (rows.map (fun r => r.company))

/-- One company's rows within a slice. -/
def companyRows (rows : List LoadedRow) (c : String) : List LoadedRow :=
  rows.filter (fun r => decide (r.company = c))

/-- `Series.nunique()` of the Location column. -/
def nuniqueLocs (rows : List LoadedRow) : Nat :=
  (firstOccs (rows.map (fun r => r.location))).length

/-- `df.groupby("Company").size().mean()`; `none` models the NaN mean of an
empty frame. -/
def avgGroupSize (rows : List LoadedRow) : Option ℚ :=
  let cos := companiesOf rows
  if cos = [] then none
  else some (((cos.map (fun c => ((companyRows rows c).length : ℚ))).sum) / (cos.length : ℚ))

/-- `df.groupby("Company")["Location"].nunique().mean()`. -/
def avgNuniqueLocs (rows : List LoadedRow) : Option ℚ :=
  let cos := companiesOf rows
  if cos = [] then none
  else some (((cos.map (fun c => (nuniqueLocs (companyRows rows c) : ℚ))).sum) / (cos.length : ℚ))

/-- The `avg_series` chain of `main`:
`groupby("Company")[col].value_counts(normalize=True).unstack(fill_value=0).mean()`
evaluated at category `v`: the mean, over the companies that have at least one
non-null value of the column, of that company's share of `v` among its own
non-null values.  A category absent everywhere gets 0 (matching
`reindex(fill_value=0)`), as `ℚ` division by zero is 0. -/
def avgSeries (rows : List LoadedRow) (col : LoadedRow → Option String) (v : String) : ℚ :=
  ((((companiesOf rows).filter
      (fun c => decide (colVals col (companyRows rows c) ≠ []))).map (fun c =>
      ((colVals col (companyRows rows c)).count v : ℚ) /
        ((colVals col (companyRows rows c)).length : ℚ))).sum) /
    (((companiesOf rows).filter
      (fun c => decide (colVals col (companyRows rows c) ≠ []))).length : ℚ)

/-- The cross-company average as the spec words it (for comparison with
`avgSeries`): the element-wise mean, over all companies present in the
filtered slice, of that company's per-category share of its own rows, a
company with zero occurrences of the category contributing share 0. -/
def specGroupAverage (rows : List LoadedRow) (col : LoadedRow → Option String) (v : String) : ℚ :=
  (((companiesOf rows).map (fun c =>
      (((companyRows rows c).map col).count (some v) : ℚ) /
        ((companyRows rows c).length : ℚ))).sum) / ((companiesOf rows).length : ℚ)

/-- The `avg_dist` rows of a share chart: `avg_series` reindexed over the
selection's unique categories (`Series.unique` keeps NaN), filled with 0,
tagged "Big 4 Average". -/
def avgDist (filtered sel : List LoadedRow) (col : LoadedRow → Option String) :
    List (Option String × ℚ × String) :=
  (firstOccs (sel.map col)).map (fun ov =>
    (ov, (match ov with
          | some v => avgSeries filtered col v
          | none => 0 : ℚ),
     "Big 4 Average"))

/-- The `sel_dist` rows of a share chart: the selection's normalized
value counts, tagged with the firm's name. -/
def selDist (sel : List LoadedRow) (col : LoadedRow → Option String) (firm : String) :
    List (Option String × ℚ × String) :=
  (valueCountsNorm (colVals col sel)).map (fun p => (some p.1, p.2, firm))

/-- `df[df["Predicted domain"].isin(domains)]`; a NaN domain matches nothing. -/
def filterByDomains (rows : List LoadedRow) (domains : List String) : List LoadedRow :=
  rows.filter (fun r =>
    match r.domain with
    | some d => decide (d ∈ domains)
    | none => false)

/-- `df_filtered[df_filtered["Company"] == firm]`. -/
def selOf (rows : List LoadedRow) (firm : String) : List LoadedRow :=
  rows.filter (fun r => decide (r.company = firm))

/-- `sel["Predicted title"].value_counts().idxmax() if total_posts else "N/A"`. -/
def topFuncOf (sel : List LoadedRow) : Except String String :=
  if sel.length = 0 then Except.ok "N/A"
  else idxmax (valueCounts (colVals (fun r => r.title) sel))

/-- Everything `main` computes from the table and the two filter widgets. -/
structure Dashboard where
  totalPosts : Nat
  uniqueLocs : Nat
  topFunc : String
  avgPosts : Option ℚ
  avgUniqueLocs : Option ℚ
  overallTopFunc : String
  titleTable : List (Option String × ℚ × String)
  fieldTable : List (Option String × ℚ × String)
  domainTable : List (String × ℚ × String)
  locationTable : List (String × Nat × String)
deriving DecidableEq

/-- The dashboard record `main` builds once both `idxmax` calls have
succeeded, with `filtered`/`sel` the two filter steps. -/
def composedTables (filtered sel : List LoadedRow) (firm tf otf : String) : Dashboard :=
  { totalPosts := sel.length
    uniqueLocs := nuniqueLocs sel
    topFunc := tf
    avgPosts := avgGroupSize filtered
    avgUniqueLocs := avgNuniqueLocs filtered
    overallTopFunc := otf
    titleTable := selDist sel (fun r => r.title) firm ++ avgDist filtered sel (fun r => r.title)
    fieldTable := selDist sel (fun r => r.field) firm ++ avgDist filtered sel (fun r => r.field)
    domainTable := domain_share sel firm ++ domain_share filtered "Big 4 Average"
    locationTable := top_locations sel firm 5 ++ top_locations filtered "Big 4 Average" 5 }

/-- The computational core of `main`: filter, KPIs, the three share tables and
the location table, in the evaluation order of the source; an uncaught
exception surfaces as `Except.error`. -/
def compose (rows : List LoadedRow) (firm : String) (domains : List String) :
    Except String Dashboard :=
  match topFuncOf (selOf (filterByDomains rows domains) firm) with
  | Except.error e => Except.error e
  | Except.ok tf =>
    match idxmax (valueCounts (colVals (fun r => r.title) (filterByDomains rows domains))) with
    | Except.error e => Except.error e
    | Except.ok otf =>
      Except.ok
        (composedTables (filterByDomains rows domains)
          (selOf (filterByDomains rows domains) firm) firm tf otf)

/-- The spec scenario table: company A has 3 rows of domain X and 1 of
domain Y, company B has 2 rows of domain X. -/
def scenarioPostings : List Posting :=
  [⟨"A", "x/f/t", "L1"⟩, ⟨"A", "x/f/t", "L2"⟩, ⟨"A", "x/f/t", "L1"⟩,
   ⟨"A", "y/f/t", "L1"⟩, ⟨"B", "x/f/t", "L3"⟩, ⟨"B", "x/f/t", "L3"⟩]

/-- The singleton table used by small witnesses. -/
def wRows : List LoadedRow := load_data [⟨"A", "x/f/t", "L1"⟩]

/-- The dashboard `compose` produces on `wRows` with firm A and filter {X}. -/
def wDash : Dashboard :=
  composedTables (filterByDomains wRows ["X"]) (selOf (filterByDomains wRows ["X"]) "A")
    "A" "T" "T"

/-- The dashboard `compose` produces on the loaded spec scenario with firm A
and filter {X, Y}. -/
def scenDash : Dashboard :=
  composedTables (filterByDomains (load_data scenarioPostings) ["X", "Y"])
    (selOf (filterByDomains (load_data scenarioPostings) ["X", "Y"]) "A") "A" "T" "T"

/-- A posting whose classification does not split into three segments. -/
def malformedPosting : Posting := ⟨"A", "onlyonepart", "L"⟩

/-- Two companies, one of which has only a malformed classification. -/
def mixedPostings : List Posting := [⟨"A", "x/f/t", "L"⟩, ⟨"B", "onlyonepart", "L"⟩]

/-- A table containing only company B, used with selected firm A. -/
def soloBPostings : List Posting := [⟨"B", "x/f/t", "L1"⟩]

/-- A posting with five classification segments. -/
def deepPosting : Posting := ⟨"A", "a_b/c/d_e/x/y", "L"⟩

section Helpers

variable {α : Type} [DecidableEq α]

theorem mem_firstOccs {v : α} {xs : List α} : v ∈ firstOccs xs ↔ v ∈ xs := by
  induction xs with
  | nil => simp [firstOccs]
  | cons x xs ih =>
    simp only [firstOccs, List.mem_cons, List.mem_filter, ih, decide_eq_true_eq]
    by_cases hvx : v = x <;> simp [hvx]

theorem firstOccs_nodup {xs : List α} : (firstOccs xs).Nodup := by
  induction xs with
  | nil => simp [firstOccs]
  | cons x xs ih =>
    simp only [firstOccs, List.nodup_cons]
    refine ⟨fun hx => ?_, ih.filter _⟩
    have := List.of_mem_filter hx
    simp at this

theorem firstOccs_eq_nil {xs : List α} : firstOccs xs = [] ↔ xs = [] := by
  cases xs <;> simp [firstOccs]

theorem firstOccs_pairwise_indexOf {xs : List α} :
    (firstOccs xs).Pairwise (fun u v => xs.indexOf u < xs.indexOf v) := by
  induction xs with
  | nil => simp [firstOccs]
  | cons x xs ih =>
    simp only [firstOccs, List.pairwise_cons]
    constructor
    · intro v hv
      have hvx : v ≠ x := by
        have := List.of_mem_filter hv
        simpa using this
      rw [List.indexOf_cons_self, List.indexOf_cons_ne _ (Ne.symm hvx)]
      exact Nat.succ_pos _
    · refine (ih.filter _).imp_of_mem ?_
      intro u v hu hv h
      have hux : u ≠ x := by
        have := List.of_mem_filter hu
        simpa using this
      have hvx : v ≠ x := by
        have := List.of_mem_filter hv
        simpa using this
      rw [List.indexOf_cons_ne _ (Ne.symm hux), List.indexOf_cons_ne _ (Ne.symm hvx)]
      exact Nat.succ_lt_succ h

theorem firstOccs_perm_dedup (xs : List α) : List.Perm (firstOccs xs) xs.dedup := by
  rw [List.perm_iff_count]
  intro a
  by_cases h : a ∈ xs
  · rw [List.count_eq_one_of_mem firstOccs_nodup (mem_firstOccs.mpr h),
      List.count_eq_one_of_mem (List.nodup_dedup xs) (List.mem_dedup.mpr h)]
  · rw [List.count_eq_zero.mpr (fun hc => h (mem_firstOccs.mp hc)),
      List.count_eq_zero.mpr (fun hc => h (List.mem_dedup.mp hc))]

theorem firstOccs_length (xs : List α) : (firstOccs xs).length = xs.dedup.length :=
  (firstOccs_perm_dedup xs).length_eq

theorem sum_count_firstOccs (xs : List α) :
    ((firstOccs xs).map (fun v => xs.count v)).sum = xs.length := by
  rw [((firstOccs_perm_dedup xs).map _).sum_eq]
  exact List.sum_map_count_dedup_eq_length xs

theorem valueCounts_perm (xs : List α) :
    List.Perm (valueCounts xs) ((firstOccs xs).map (fun v => (v, xs.count v))) :=
  List.perm_insertionSort _ _

theorem mem_valueCounts {xs : List α} {p : α × Nat} (hp : p ∈ valueCounts xs) :
    p.1 ∈ xs ∧ p.2 = xs.count p.1 := by
  have h := (valueCounts_perm xs).mem_iff.mp hp
  obtain ⟨v, hv, hveq⟩ := List.mem_map.mp h
  cases hveq
  exact ⟨mem_firstOccs.mp hv, rfl⟩

theorem valueCounts_length (xs : List α) : (valueCounts xs).length = xs.dedup.length := by
  rw [(valueCounts_perm xs).length_eq, List.length_map, firstOccs_length]

theorem valueCounts_eq_nil {xs : List α} : valueCounts xs = [] ↔ xs = [] := by
  constructor
  · intro h
    have := congrArg List.length h
    rw [valueCounts_length] at this
    simpa [List.dedup_eq_nil] using this
  · intro h
    subst h
    rfl

theorem orderedInsert_pairwise_stable {γ : Type} {key : γ → Nat} {Q : γ → γ → Prop}
    (p : γ) (l : List γ)
    (hl : l.Pairwise (fun a b => key b ≤ key a ∧ (key a = key b → Q a b)))
    (hp : ∀ q ∈ l, Q p q) :
    (List.orderedInsert (fun a b => key b ≤ key a) p l).Pairwise
      (fun a b => key b ≤ key a ∧ (key a = key b → Q a b)) := by
  induction l with
  | nil => simp
  | cons q qs ih =>
    simp only [List.orderedInsert]
    by_cases h : key q ≤ key p
    · rw [if_pos h]
      refine List.pairwise_cons.mpr ⟨?_, hl⟩
      intro x hx
      rcases List.mem_cons.mp hx with rfl | hxqs
      · exact ⟨h, fun _ => hp x (List.mem_cons_self _ _)⟩
      · have hqx := (List.pairwise_cons.mp hl).1 x hxqs
        exact ⟨le_trans hqx.1 h, fun _ => hp x (List.mem_cons_of_mem _ hxqs)⟩
    · rw [if_neg h]
      have hlt : key p < key q := Nat.lt_of_not_le h
      refine List.pairwise_cons.mpr ⟨?_, ih (List.pairwise_cons.mp hl).2
        (fun x hx => hp x (List.mem_cons_of_mem _ hx))⟩
      intro x hx
      rcases (List.mem_orderedInsert _).mp hx with rfl | hxqs
      · exact ⟨Nat.le_of_lt hlt, fun he => absurd he (Nat.ne_of_gt hlt)⟩
      · exact (List.pairwise_cons.mp hl).1 x hxqs

theorem insertionSort_pairwise_stable {γ : Type} {key : γ → Nat} {Q : γ → γ → Prop}
    (l : List γ) (hl : l.Pairwise Q) :
    (List.insertionSort (fun a b => key b ≤ key a) l).Pairwise
      (fun a b => key b ≤ key a ∧ (key a = key b → Q a b)) := by
  induction l with
  | nil => simp
  | cons p ps ih =>
    simp only [List.insertionSort]
    refine orderedInsert_pairwise_stable p _ (ih (List.pairwise_cons.mp hl).2) ?_
    intro q hq
    exact (List.pairwise_cons.mp hl).1 q ((List.perm_insertionSort _ _).mem_iff.mp hq)

end Helpers

section MoreHelpers

theorem sum_map_div {α : Type} (l : List α) (f : α → ℚ) (c : ℚ) :
    (l.map (fun v => f v / c)).sum = (l.map f).sum / c := by
  induction l with
  | nil => simp
  | cons x xs ih => simp [ih, add_div]

theorem length_filterMap_of_isSome {α β : Type} {f : α → Option β} {l : List α}
    (h : ∀ r ∈ l, (f r).isSome) : (l.filterMap f).length = l.length := by
  induction l with
  | nil => rfl
  | cons x xs ih =>
    obtain ⟨v, hv⟩ := Option.isSome_iff_exists.mp (h x (List.mem_cons_self _ _))
    rw [List.filterMap_cons, hv]
    simp [ih (fun r hr => h r (List.mem_cons_of_mem _ hr))]

theorem count_filterMap_some {α β : Type} [DecidableEq β] (f : α → Option β) (l : List α) (v : β) :
    (l.filterMap f).count v = (l.map f).count (some v) := by
  induction l with
  | nil => rfl
  | cons x xs ih =>
    cases hx : f x with
    | none => simp [List.filterMap_cons, hx, ih, List.count_cons, hx]
    | some w => simp [List.filterMap_cons, hx, ih, List.count_cons]

theorem splitSlash_ne_nil (l : List Char) : splitSlash l ≠ [] := by
  cases l with
  | nil => simp [splitSlash]
  | cons c cs =>
    simp only [splitSlash]
    by_cases h : c = '/'
    · simp [h]
    · rw [if_neg h]
      cases splitSlash cs <;> simp

theorem pySplit_ne_nil (s : String) : pySplit s ≠ [] := by
  unfold pySplit
  intro h
  exact splitSlash_ne_nil s.data (List.map_eq_nil_iff.mp h)

theorem loadRow_domain_isSome (p : Posting) : ((loadRow p).domain).isSome := by
  obtain ⟨b, L, hbl⟩ := List.exists_cons_of_ne_nil (pySplit_ne_nil p.classification)
  simp [loadRow, hbl]

theorem compose_eq_ok {rows : List LoadedRow} {firm : String} {domains : List String}
    {tf otf : String}
    (h1 : topFuncOf (selOf (filterByDomains rows domains) firm) = Except.ok tf)
    (h2 : idxmax (valueCounts (colVals (fun r => r.title) (filterByDomains rows domains))) =
      Except.ok otf) :
    compose rows firm domains =
      Except.ok (composedTables (filterByDomains rows domains)
        (selOf (filterByDomains rows domains) firm) firm tf otf) := by
  unfold compose
  rw [h1, h2]

theorem valueCountsNorm_sum {α : Type} [DecidableEq α] (xs : List α) (hx : xs ≠ []) :
    ((valueCountsNorm xs).map (fun p => p.2)).sum = 1 := by
  simp only [valueCountsNorm, List.map_map]
  rw [((valueCounts_perm xs).map _).sum_eq, List.map_map]
  have h1 : ((firstOccs xs).map
      (((fun p : α × ℚ => p.2) ∘ fun p : α × Nat => (p.1, (p.2 : ℚ) / (xs.length : ℚ))) ∘
        fun v => (v, xs.count v))).sum
      = ((firstOccs xs).map (fun v => ((xs.count v : ℚ)) / (xs.length : ℚ))).sum := rfl
  rw [h1, sum_map_div]
  have h2 : ((firstOccs xs).map fun v => ((xs.count v : ℕ) : ℚ)).sum
      = (((firstOccs xs).map fun v => xs.count v).sum : ℚ) := by
    rw [Nat.cast_list_sum, List.map_map]
    rfl
  rw [h2, sum_count_firstOccs]
  exact div_self (Nat.cast_ne_zero.mpr (List.length_pos.mpr hx).ne')

theorem domain_share_entry {rows : List LoadedRow} {name : String}
    (hdef : ∀ r ∈ rows, (r.domain).isSome) :
    ∀ e ∈ domain_share rows name,
      e.2.2 = name ∧ e.1 ∈ colVals (fun r => r.domain) rows ∧
      e.2.1 = ((colVals (fun r => r.domain) rows).count e.1 : ℚ) / (rows.length : ℚ) := by
  intro e he
  simp only [domain_share, valueCountsNorm, List.map_map, List.mem_map] at he
  obtain ⟨p, hp, rfl⟩ := he
  have hm := mem_valueCounts hp
  have hlen : (colVals (fun r => r.domain) rows).length = rows.length :=
    length_filterMap_of_isSome (fun r hr => hdef r hr)
  refine ⟨rfl, hm.1, ?_⟩
  simp only [Function.comp]
  rw [hm.2, hlen]

theorem domain_share_sum {rows : List LoadedRow} {name : String}
    (hdef : ∀ r ∈ rows, (r.domain).isSome) (hne : rows ≠ []) :
    ((domain_share rows name).map (fun e => e.2.1)).sum = 1 := by
  have hlen : (colVals (fun r => r.domain) rows).length = rows.length :=
    length_filterMap_of_isSome (fun r hr => hdef r hr)
  have hx : colVals (fun r => r.domain) rows ≠ [] := by
    intro h0
    rw [h0] at hlen
    exact hne (List.length_eq_zero.mp hlen.symm)
  simp only [domain_share, List.map_map]
  have hc : ((fun e : String × ℚ × String => e.2.1) ∘ fun p : String × ℚ => (p.1, p.2, name))
      = fun p : String × ℚ => p.2 := rfl
  rw [hc]
  exact valueCountsNorm_sum _ hx

theorem map_fst_map_pair {α β : Type} (l : List α) (g : α → β) :
    ((l.map (fun v => (v, g v))).map (fun p : α × β => p.1)) = l := by
  induction l with
  | nil => rfl
  | cons x xs ih => simp [ih]

theorem compose_ok_inv {rows : List LoadedRow} {firm : String} {domains : List String}
    {d : Dashboard} (h : compose rows firm domains = Except.ok d) :
    ∃ tf otf, d = composedTables (filterByDomains rows domains)
      (selOf (filterByDomains rows domains) firm) firm tf otf := by
  unfold compose at h
  split at h
  · cases h
  · split at h
    · cases h
    · injection h with h
      exact ⟨_, _, h.symm⟩

end MoreHelpers

example : pySplit "a_b/c/d_e" = ["a_b", "c", "d_e"] := by decide
example : fmtLabel "a_b" = "A B" := by decide
example : (loadRow ⟨"A", "onlyonepart", "L"⟩).title = none := by decide
example : valueCountsNorm ["a", "b", "a"] = [("a", 2/3), ("b", 1/3)] := by
  have h : valueCounts ["a", "b", "a"] = [("a", 2), ("b", 1)] := by decide
  norm_num [valueCountsNorm, h]

example :
    domain_share (load_data scenarioPostings) "Big 4 Average" =
      [("X", 5/6, "Big 4 Average"), ("Y", 1/6, "Big 4 Average")] := by
  have h0 : colVals (fun r => r.domain) (load_data scenarioPostings) =
      ["X", "X", "X", "Y", "X", "X"] := by decide
  have h : valueCounts (["X", "X", "X", "Y", "X", "X"] : List String) =
      [("X", 5), ("Y", 1)] := by decide
  norm_num [domain_share, valueCountsNorm, h0, h]

/-! Claim theorems. -/

/-- C7: a classification with exactly three segments is split on "/" and each
segment is formatted independently by replacing underscores with spaces and
title-casing; the three derived labels are the formatted segments in order. -/
theorem parse_three_segments (p : Posting) (s0 s1 s2 : String)
    (h : pySplit p.classification = [s0, s1, s2]) :
    (loadRow p).domain = some (fmtLabel s0) ∧
    (loadRow p).field = some (fmtLabel s1) ∧
    (loadRow p).title = some (fmtLabel s2) := by
  simp [loadRow, h]

/-- C7 witness: the spec example "a_b/c/d_e" yields "A B", "C", "D E". -/
theorem parse_three_segments_witness :
    pySplit (Posting.mk "Acme" "a_b/c/d_e" "L").classification = ["a_b", "c", "d_e"] ∧
    (loadRow ⟨"Acme", "a_b/c/d_e", "L"⟩).domain = some "A B" ∧
    (loadRow ⟨"Acme", "a_b/c/d_e", "L"⟩).field = some "C" ∧
    (loadRow ⟨"Acme", "a_b/c/d_e", "L"⟩).title = some "D E" := by
  have h := parse_three_segments ⟨"Acme", "a_b/c/d_e", "L"⟩ "a_b" "c" "d_e" (by decide)
  refine ⟨by decide, ?_, ?_, ?_⟩
  · rw [h.1]; decide
  · rw [h.2.1]; decide
  · rw [h.2.2]; decide

/-- C9: a classification with more than three segments is loaded without
failure or exclusion; the labels come from the first three segments and the
remaining segments are ignored (the labels do not depend on them). -/
theorem extra_segments_ignored (p : Posting) (s0 s1 s2 : String) (rest : List String)
    (h : pySplit p.classification = s0 :: s1 :: s2 :: rest) :
    (load_data [p]).length = 1 ∧
    (loadRow p).domain = some (fmtLabel s0) ∧
    (loadRow p).field = some (fmtLabel s1) ∧
    (loadRow p).title = some (fmtLabel s2) := by
  simp [load_data, loadRow, h]

/-- C9 witness: "a_b/c/d_e/x/y" loads with labels taken from the first three
of its five segments. -/
theorem extra_segments_ignored_witness :
    pySplit deepPosting.classification = "a_b" :: "c" :: "d_e" :: ["x", "y"] ∧
    (load_data [deepPosting]).length = 1 ∧
    (loadRow deepPosting).domain = some (fmtLabel "a_b") ∧
    (loadRow deepPosting).field = some (fmtLabel "c") ∧
    (loadRow deepPosting).title = some (fmtLabel "d_e") :=
  ⟨by decide, extra_segments_ignored deepPosting "a_b" "c" "d_e" ["x", "y"] (by decide)⟩

/-- C10: whenever the domain filter empties the table, `main` raises while
taking the most frequent title of the empty filtered slice (idxmax of an
empty value-counts series), instead of producing a no-data dashboard. -/
theorem compose_empty_filtered_raises (rows : List LoadedRow) (firm : String)
    (domains : List String) (h : filterByDomains rows domains = []) :
    compose rows firm domains =
      Except.error "attempt to get argmax of an empty sequence" := by
  unfold compose
  rw [h]
  rfl

/-- C10 witness: a one-row table with an emptied domain filter makes the
composition raise. -/
theorem compose_empty_filtered_raises_witness :
    filterByDomains wRows [] = [] ∧
    compose wRows "A" [] = Except.error "attempt to get argmax of an empty sequence" :=
  ⟨by decide, compose_empty_filtered_raises wRows "A" [] (by decide)⟩

/-- C2 as stated fails on the code: the row with classification
"onlyonepart" is loaded, not excluded, and its sole segment still feeds the
domain aggregation as the label "Onlyonepart"; no excluded-row counter
exists, and nothing is raised. -/
theorem malformed_row_not_excluded :
    (load_data [malformedPosting]).length = 1 ∧
    (loadRow malformedPosting).domain = some "Onlyonepart" ∧
    domain_share (load_data [malformedPosting]) "A" = [("Onlyonepart", 1, "A")] := by
  refine ⟨by decide, by decide, ?_⟩
  have h0 : colVals (fun r => r.domain) (load_data [malformedPosting]) =
      ["Onlyonepart"] := by decide
  have h : valueCounts (["Onlyonepart"] : List String) = [("Onlyonepart", 1)] := by decide
  norm_num [domain_share, valueCountsNorm, h0, h]

/-- C2 amended: a row whose classification has fewer than three segments is
kept by loading (which never raises and never drops a row, and keeps no
counter): its title label becomes the null marker, so the row is dropped
from title value-count aggregations, while its domain label is defined and
still participates in domain aggregations. -/
theorem malformed_row_policy (ps : List Posting) (p : Posting)
    (hseg : (pySplit p.classification).length < 3) :
    (load_data ps).length = ps.length ∧
    (loadRow p).title = none ∧
    ((loadRow p).domain).isSome = true ∧
    colVals (fun r => r.title) (load_data [p]) = [] := by
  have htitle : (loadRow p).title = none := by
    simp only [loadRow]
    rw [List.getElem?_eq_none (by omega)]
    rfl
  refine ⟨by simp [load_data], htitle, loadRow_domain_isSome p, ?_⟩
  simp [colVals, load_data, htitle]

/-- C2 witness for the amended claim, at the malformed posting of the spec
scenario. -/
theorem malformed_row_policy_witness :
    (pySplit malformedPosting.classification).length < 3 ∧
    ((load_data [malformedPosting]).length = 1 ∧
     (loadRow malformedPosting).title = none ∧
     ((loadRow malformedPosting).domain).isSome = true ∧
     colVals (fun r => r.title) (load_data [malformedPosting]) = []) :=
  ⟨by decide, malformed_row_policy [malformedPosting] malformedPosting (by decide)⟩

/-- C6: `domain_share` maps each distinct domain value of the slice to its
count divided by the number of rows, the shares sum to exactly 1 whenever the
slice is non-empty, and an empty slice gives the empty table with no division
error. -/
theorem distribution_contract (rows : List LoadedRow) (name : String)
    (hdef : ∀ r ∈ rows, (r.domain).isSome) :
    (rows = [] → domain_share rows name = []) ∧
    (rows ≠ [] → ((domain_share rows name).map (fun e => e.2.1)).sum = 1) ∧
    (∀ e ∈ domain_share rows name,
      e.2.2 = name ∧ e.1 ∈ colVals (fun r => r.domain) rows ∧
      e.2.1 = ((colVals (fun r => r.domain) rows).count e.1 : ℚ) / (rows.length : ℚ)) := by
  refine ⟨?_, fun hne => domain_share_sum hdef hne, domain_share_entry hdef⟩
  intro h
  subst h
  rfl

/-- C6 witness, on the loaded spec scenario table. -/
theorem distribution_contract_witness :
    (∀ r ∈ load_data scenarioPostings, (r.domain).isSome) ∧
    ((load_data scenarioPostings = [] → domain_share (load_data scenarioPostings) "A" = []) ∧
     (load_data scenarioPostings ≠ [] →
       ((domain_share (load_data scenarioPostings) "A").map (fun e => e.2.1)).sum = 1) ∧
     (∀ e ∈ domain_share (load_data scenarioPostings) "A",
       e.2.2 = "A" ∧ e.1 ∈ colVals (fun r => r.domain) (load_data scenarioPostings) ∧
       e.2.1 = ((colVals (fun r => r.domain) (load_data scenarioPostings)).count e.1 : ℚ) /
         ((load_data scenarioPostings).length : ℚ))) :=
  ⟨by decide, distribution_contract (load_data scenarioPostings) "A" (by decide)⟩

theorem top_locations_entry (rows : List LoadedRow) (name : String) (n : Nat) :
    ∀ e ∈ top_locations rows name n,
      e.2.2 = name ∧ e.1 ∈ rows.map (fun r => r.location) ∧
      e.2.1 = (rows.map (fun r => r.location)).count e.1 := by
  intro e he
  simp only [top_locations, List.mem_map] at he
  obtain ⟨p, hp, rfl⟩ := he
  have hm := mem_valueCounts (List.mem_of_mem_take hp)
  exact ⟨rfl, hm.1, hm.2⟩

theorem top_locations_length (rows : List LoadedRow) (name : String) (n : Nat) :
    (top_locations rows name n).length =
      min n ((rows.map (fun r => r.location)).dedup.length) := by
  simp only [top_locations, List.length_map, List.length_take]
  rw [valueCounts_length]

theorem valueCounts_counts_mono {α : Type} [DecidableEq α] (xs : List α) :
    (valueCounts xs).Pairwise (fun p q : α × Nat => q.2 ≤ p.2) := by
  have htriv : ((firstOccs xs).map (fun v => (v, xs.count v))).Pairwise
      (fun _ _ : α × Nat => True) := by
    induction (firstOccs xs).map (fun v => (v, xs.count v)) with
    | nil => exact List.Pairwise.nil
    | cons a l ih => exact List.Pairwise.cons (fun _ _ => trivial) ih
  have h := @insertionSort_pairwise_stable (α × Nat) (fun p => p.2)
    (fun _ _ : α × Nat => True) _ htriv
  exact h.imp (fun hp => hp.1)

theorem top_locations_counts_mono (rows : List LoadedRow) (name : String) (n : Nat) :
    (top_locations rows name n).Pairwise (fun a b => b.2.1 ≤ a.2.1) := by
  simp only [top_locations]
  rw [List.pairwise_map]
  exact List.Pairwise.sublist (List.take_sublist n _) (valueCounts_counts_mono _)

/-- C8: the location table concatenates the selected company's top-5
locations with the top-5 of the whole filtered slice; each side's entries
pair a location of that side's rows with its raw occurrence count there —
the average side counting over ALL filtered rows pooled, with company
boundaries ignored, not a per-company average — and the average side is a
genuine top-N: min(5, distinct) entries with non-increasing counts. -/
theorem location_table_pooled (rows : List LoadedRow) (firm : String)
    (domains : List String) (d : Dashboard)
    (h : compose rows firm domains = Except.ok d) :
    d.locationTable =
      top_locations (selOf (filterByDomains rows domains) firm) firm 5 ++
        top_locations (filterByDomains rows domains) "Big 4 Average" 5 ∧
    (∀ e ∈ top_locations (selOf (filterByDomains rows domains) firm) firm 5,
      e.2.2 = firm ∧
      e.1 ∈ (selOf (filterByDomains rows domains) firm).map (fun r => r.location) ∧
      e.2.1 = ((selOf (filterByDomains rows domains) firm).map
        (fun r => r.location)).count e.1) ∧
    (∀ e ∈ top_locations (filterByDomains rows domains) "Big 4 Average" 5,
      e.2.2 = "Big 4 Average" ∧
      e.1 ∈ (filterByDomains rows domains).map (fun r => r.location) ∧
      e.2.1 = ((filterByDomains rows domains).map (fun r => r.location)).count e.1) ∧
    (top_locations (filterByDomains rows domains) "Big 4 Average" 5).length =
      min 5 (((filterByDomains rows domains).map (fun r => r.location)).dedup.length) ∧
    (top_locations (filterByDomains rows domains) "Big 4 Average" 5).Pairwise
      (fun a b => b.2.1 ≤ a.2.1) := by
  refine ⟨?_, top_locations_entry _ _ _, top_locations_entry _ _ _,
    top_locations_length _ _ _, top_locations_counts_mono _ _ _⟩
  obtain ⟨tf, otf, rfl⟩ := compose_ok_inv h
  rfl

/-- C8 witness, on the loaded spec scenario: the average side reads
(L1, 3), (L3, 2), (L2, 1) — counts summed over both companies' filtered
rows (L3 pools B's two rows), not per-company means. -/
theorem location_table_pooled_witness :
    compose (load_data scenarioPostings) "A" ["X", "Y"] = Except.ok scenDash ∧
    top_locations (filterByDomains (load_data scenarioPostings) ["X", "Y"])
        "Big 4 Average" 5 =
      [("L1", 3, "Big 4 Average"), ("L3", 2, "Big 4 Average"),
       ("L2", 1, "Big 4 Average")] ∧
    (scenDash.locationTable =
      top_locations (selOf (filterByDomains (load_data scenarioPostings) ["X", "Y"]) "A")
          "A" 5 ++
        top_locations (filterByDomains (load_data scenarioPostings) ["X", "Y"])
          "Big 4 Average" 5 ∧
    (∀ e ∈ top_locations (selOf (filterByDomains (load_data scenarioPostings) ["X", "Y"])
        "A") "A" 5,
      e.2.2 = "A" ∧
      e.1 ∈ (selOf (filterByDomains (load_data scenarioPostings) ["X", "Y"]) "A").map
        (fun r => r.location) ∧
      e.2.1 = ((selOf (filterByDomains (load_data scenarioPostings) ["X", "Y"]) "A").map
        (fun r => r.location)).count e.1) ∧
    (∀ e ∈ top_locations (filterByDomains (load_data scenarioPostings) ["X", "Y"])
        "Big 4 Average" 5,
      e.2.2 = "Big 4 Average" ∧
      e.1 ∈ (filterByDomains (load_data scenarioPostings) ["X", "Y"]).map
        (fun r => r.location) ∧
      e.2.1 = ((filterByDomains (load_data scenarioPostings) ["X", "Y"]).map
        (fun r => r.location)).count e.1) ∧
    (top_locations (filterByDomains (load_data scenarioPostings) ["X", "Y"])
        "Big 4 Average" 5).length =
      min 5 (((filterByDomains (load_data scenarioPostings) ["X", "Y"]).map
        (fun r => r.location)).dedup.length) ∧
    (top_locations (filterByDomains (load_data scenarioPostings) ["X", "Y"])
        "Big 4 Average" 5).Pairwise (fun a b => b.2.1 ≤ a.2.1)) := by
  have hc : compose (load_data scenarioPostings) "A" ["X", "Y"] = Except.ok scenDash := by
    unfold scenDash
    exact compose_eq_ok (by decide) (by decide)
  exact ⟨hc, by decide,
    location_table_pooled (load_data scenarioPostings) "A" ["X", "Y"] scenDash hc⟩

/-- C3 as stated fails on the code: with the selected company filtered out
but another company still present with titles, composing succeeds, yet the
two count KPIs read the plain number 0 — the same value as a company with
zero openings, not a distinguishable no-data marker — and the title and
field share tables are entirely empty, average side included. -/
theorem empty_selection_zero_kpis :
    (compose (load_data soloBPostings) "A" ["X"]).map
        (fun d => (d.totalPosts, d.uniqueLocs, d.topFunc, d.titleTable, d.fieldTable)) =
      Except.ok (0, 0, "N/A", ([] : List (Option String × ℚ × String)),
        ([] : List (Option String × ℚ × String))) := by
  have h1 : topFuncOf (selOf (filterByDomains (load_data soloBPostings) ["X"]) "A") =
      Except.ok "N/A" := by decide
  have h2 : idxmax (valueCounts (colVals (fun r => r.title)
      (filterByDomains (load_data soloBPostings) ["X"]))) = Except.ok "T" := by decide
  rw [compose_eq_ok h1 h2]
  rfl

/-- C3 amended: if the selected company has no rows after filtering but some
filtered row still has a title, composing succeeds: the top-title KPI reads
"N/A" while the two count KPIs read the number 0; the domain and location
tables consist of exactly the average-side rows of the remaining companies;
the title and field tables are empty — their average side too, because the
average series is reindexed over the empty selection category set. -/
theorem empty_selection_no_raise (rows : List LoadedRow) (firm : String)
    (domains : List String)
    (hsel : selOf (filterByDomains rows domains) firm = [])
    (htitles : colVals (fun r => r.title) (filterByDomains rows domains) ≠ []) :
    ∃ d, compose rows firm domains = Except.ok d ∧
      d.topFunc = "N/A" ∧ d.totalPosts = 0 ∧ d.uniqueLocs = 0 ∧
      d.titleTable = [] ∧ d.fieldTable = [] ∧
      d.domainTable = domain_share (filterByDomains rows domains) "Big 4 Average" ∧
      d.locationTable = top_locations (filterByDomains rows domains) "Big 4 Average" 5 := by
  have h1 : topFuncOf (selOf (filterByDomains rows domains) firm) = Except.ok "N/A" := by
    rw [hsel]
    rfl
  have hvc : valueCounts (colVals (fun r => r.title) (filterByDomains rows domains)) ≠ [] :=
    fun hc => htitles (valueCounts_eq_nil.mp hc)
  obtain ⟨q, qs, hq⟩ := List.exists_cons_of_ne_nil hvc
  have h2 : idxmax (valueCounts (colVals (fun r => r.title) (filterByDomains rows domains))) =
      Except.ok (qs.foldl (fun best x => if best.2 < x.2 then x else best) q).1 := by
    rw [hq]
    rfl
  refine ⟨_, compose_eq_ok h1 h2, rfl, ?_, ?_, ?_, ?_, ?_, ?_⟩
  · simp [composedTables, hsel]
  · simp [composedTables, hsel, nuniqueLocs, firstOccs]
  · simp [composedTables, hsel, selDist, avgDist, colVals, valueCountsNorm, valueCounts,
      firstOccs]
  · simp [composedTables, hsel, selDist, avgDist, colVals, valueCountsNorm, valueCounts,
      firstOccs]
  · simp [composedTables, hsel, domain_share, colVals, valueCountsNorm, valueCounts, firstOccs]
  · simp [composedTables, hsel, top_locations, valueCounts, firstOccs]

/-- C3 witness for the amended claim: company B remains, firm A is absent. -/
theorem empty_selection_no_raise_witness :
    (selOf (filterByDomains (load_data soloBPostings) ["X"]) "A" = [] ∧
     colVals (fun r => r.title) (filterByDomains (load_data soloBPostings) ["X"]) ≠ []) ∧
    (∃ d, compose (load_data soloBPostings) "A" ["X"] = Except.ok d ∧
      d.topFunc = "N/A" ∧ d.totalPosts = 0 ∧ d.uniqueLocs = 0 ∧
      d.titleTable = [] ∧ d.fieldTable = [] ∧
      d.domainTable = domain_share (filterByDomains (load_data soloBPostings) ["X"])
        "Big 4 Average" ∧
      d.locationTable = top_locations (filterByDomains (load_data soloBPostings) ["X"])
        "Big 4 Average" 5) :=
  ⟨⟨by decide, by decide⟩,
    empty_selection_no_raise (load_data soloBPostings) "A" ["X"] (by decide) (by decide)⟩

/-- C1 as stated fails on the code: in the spec scenario the domain table's
average side holds the pooled shares of the filtered rows, (5/6, 1/6), not
the cross-company mean (0.875, 0.125) announced by the claim. -/
theorem scenario_domain_avg_pooled_values :
    (compose (load_data scenarioPostings) "A" ["X", "Y"]).map (fun d => d.domainTable) =
      Except.ok [("X", 3/4, "A"), ("Y", 1/4, "A"),
        ("X", 5/6, "Big 4 Average"), ("Y", 1/6, "Big 4 Average")] ∧
    (5/6 : ℚ) ≠ 7/8 ∧ (1/6 : ℚ) ≠ 1/8 := by
  refine ⟨?_, by norm_num, by norm_num⟩
  have h1 : topFuncOf (selOf (filterByDomains (load_data scenarioPostings) ["X", "Y"]) "A") =
      Except.ok "T" := by decide
  have h2 : idxmax (valueCounts (colVals (fun r => r.title)
      (filterByDomains (load_data scenarioPostings) ["X", "Y"]))) = Except.ok "T" := by decide
  rw [compose_eq_ok h1 h2]
  have hselcol : colVals (fun r => r.domain)
      (selOf (filterByDomains (load_data scenarioPostings) ["X", "Y"]) "A") =
      ["X", "X", "X", "Y"] := by decide
  have hfilcol : colVals (fun r => r.domain)
      (filterByDomains (load_data scenarioPostings) ["X", "Y"]) =
      ["X", "X", "X", "Y", "X", "X"] := by decide
  have hvc1 : valueCounts (["X", "X", "X", "Y"] : List String) = [("X", 3), ("Y", 1)] := by
    decide
  have hvc2 : valueCounts (["X", "X", "X", "Y", "X", "X"] : List String) =
      [("X", 5), ("Y", 1)] := by decide
  norm_num [Except.map, composedTables, domain_share, valueCountsNorm, hselcol, hfilcol,
    hvc1, hvc2]

/-- C1 amended: the domain table pairs the firm's own domain shares with the
POOLED domain share of the whole filtered slice: the value reported for a
category on the average side is its count among all filtered rows divided by
the number of filtered rows, with company boundaries ignored. -/
theorem domain_table_avg_pooled (rows : List LoadedRow) (firm : String)
    (domains : List String) (d : Dashboard)
    (h : compose rows firm domains = Except.ok d)
    (hdef : ∀ r ∈ filterByDomains rows domains, (r.domain).isSome) :
    d.domainTable =
      domain_share (selOf (filterByDomains rows domains) firm) firm ++
        domain_share (filterByDomains rows domains) "Big 4 Average" ∧
    ∀ e ∈ domain_share (filterByDomains rows domains) "Big 4 Average",
      e.2.2 = "Big 4 Average" ∧
      e.2.1 = ((colVals (fun r => r.domain) (filterByDomains rows domains)).count e.1 : ℚ) /
        ((filterByDomains rows domains).length : ℚ) := by
  obtain ⟨tf, otf, rfl⟩ := compose_ok_inv h
  refine ⟨rfl, fun e he => ?_⟩
  obtain ⟨h1, _, h3⟩ := domain_share_entry hdef e he
  exact ⟨h1, h3⟩

/-- C1 witness for the amended claim, on the singleton table. -/
theorem domain_table_avg_pooled_witness :
    compose wRows "A" ["X"] = Except.ok wDash ∧
    (∀ r ∈ filterByDomains wRows ["X"], (r.domain).isSome) ∧
    (wDash.domainTable =
      domain_share (selOf (filterByDomains wRows ["X"]) "A") "A" ++
        domain_share (filterByDomains wRows ["X"]) "Big 4 Average" ∧
     ∀ e ∈ domain_share (filterByDomains wRows ["X"]) "Big 4 Average",
       e.2.2 = "Big 4 Average" ∧
       e.2.1 = ((colVals (fun r => r.domain) (filterByDomains wRows ["X"])).count e.1 : ℚ) /
         ((filterByDomains wRows ["X"]).length : ℚ)) := by
  have hc : compose wRows "A" ["X"] = Except.ok wDash := by
    unfold wDash
    exact compose_eq_ok (by decide) (by decide)
  exact ⟨hc, by decide, domain_table_avg_pooled wRows "A" ["X"] wDash hc (by decide)⟩

/-- C4 as stated fails on the code: company B is present in the filtered
table, but its only row has a null title, so the code's average series
averages over company A alone and reports 1, while the claim's mean over all
companies present (B contributing share 0) is 1/2. -/
theorem group_average_drops_null_companies :
    avgSeries (load_data mixedPostings) (fun r => r.title) "T" = 1 ∧
    specGroupAverage (load_data mixedPostings) (fun r => r.title) "T" = 1/2 ∧
    (1 : ℚ) ≠ 1/2 := by
  refine ⟨?_, ?_, by norm_num⟩
  · have hfil : (companiesOf (load_data mixedPostings)).filter
        (fun c => !decide (colVals (fun r => r.title)
          (companyRows (load_data mixedPostings) c) = [])) = ["A"] := by decide
    have hA : colVals (fun r => r.title) (companyRows (load_data mixedPostings) "A") =
        ["T"] := by decide
    norm_num [avgSeries, hfil, hA]
  · have hcos : companiesOf (load_data mixedPostings) = ["A", "B"] := by decide
    have hA : (companyRows (load_data mixedPostings) "A").map (fun r => r.title) =
        [some "T"] := by decide
    have hB : (companyRows (load_data mixedPostings) "B").map (fun r => r.title) =
        [none] := by decide
    have hlenA : (companyRows (load_data mixedPostings) "A").length = 1 := by decide
    have hlenB : (companyRows (load_data mixedPostings) "B").length = 1 := by decide
    have hcA : (([some "T"] : List (Option String)).count (some "T")) = 1 := by decide
    have hcB : (([none] : List (Option String)).count (some "T")) = 0 := by decide
    norm_num [specGroupAverage, hcos, hA, hB, hlenA, hlenB, hcA, hcB]

/-- C4 amended: when every row of the filtered slice has a non-null value of
the column, the code's average series is exactly the spec's cross-company
mean: each company's per-category share (0 when it has no occurrences),
averaged element-wise over the companies present in the slice. -/
theorem group_average_of_shares (rows : List LoadedRow)
    (col : LoadedRow → Option String) (v : String)
    (hdef : ∀ r ∈ rows, (col r).isSome) :
    avgSeries rows col v = specGroupAverage rows col v := by
  have hdefc : ∀ c : String, ∀ x ∈ companyRows rows c, (col x).isSome :=
    fun c x hx => hdef x (List.mem_of_mem_filter hx)
  have hfix : (companiesOf rows).filter
      (fun c => decide (colVals col (companyRows rows c) ≠ [])) = companiesOf rows := by
    apply List.filter_eq_self.mpr
    intro c hc
    rw [decide_eq_true_eq]
    intro hnil
    obtain ⟨r, hr, hrc⟩ := List.mem_map.mp (mem_firstOccs.mp hc)
    have hlen : (colVals col (companyRows rows c)).length = (companyRows rows c).length :=
      length_filterMap_of_isSome (hdefc c)
    rw [hnil] at hlen
    simp only [List.length_nil] at hlen
    have hrmem : r ∈ companyRows rows c := by
      simp [companyRows, hr, hrc]
    have := List.length_pos.mpr (List.ne_nil_of_mem hrmem)
    omega
  unfold avgSeries specGroupAverage
  rw [hfix]
  have hmap : (companiesOf rows).map (fun c =>
      ((colVals col (companyRows rows c)).count v : ℚ) /
        ((colVals col (companyRows rows c)).length : ℚ)) =
      (companiesOf rows).map (fun c =>
        (((companyRows rows c).map col).count (some v) : ℚ) /
          ((companyRows rows c).length : ℚ)) := by
    apply List.map_congr_left
    intro c hc
    simp only [colVals]
    rw [count_filterMap_some, length_filterMap_of_isSome (hdefc c)]
  rw [hmap]

/-- C4 witness for the amended claim, on the fully well-formed scenario. -/
theorem group_average_of_shares_witness :
    (∀ r ∈ load_data scenarioPostings, (r.title).isSome) ∧
    avgSeries (load_data scenarioPostings) (fun r => r.title) "T" =
      specGroupAverage (load_data scenarioPostings) (fun r => r.title) "T" :=
  ⟨by decide,
    group_average_of_shares (load_data scenarioPostings) (fun r => r.title) "T" (by decide)⟩

/-- C5: `top_locations` returns exactly min(n, number of distinct locations)
entries — all of them when fewer than n distinct values exist, without
padding (the listed locations are pairwise distinct) — each a location of
the slice tagged with the group name and its raw count; counts are
non-increasing along the sequence, and entries with equal counts appear in
the order of the location's first occurrence in the rows (stable sort). -/
theorem top_n_ranking (rows : List LoadedRow) (name : String) (n : Nat) :
    (top_locations rows name n).length =
      min n ((rows.map (fun r => r.location)).dedup.length) ∧
    (∀ e ∈ top_locations rows name n,
      e.2.2 = name ∧ e.1 ∈ rows.map (fun r => r.location) ∧
      e.2.1 = (rows.map (fun r => r.location)).count e.1) ∧
    (top_locations rows name n).Pairwise (fun a b => b.2.1 ≤ a.2.1) ∧
    (top_locations rows name n).Pairwise (fun a b => a.2.1 = b.2.1 →
      (rows.map (fun r => r.location)).indexOf a.1 <
        (rows.map (fun r => r.location)).indexOf b.1) ∧
    ((top_locations rows name n).map (fun e => e.1)).Nodup := by
  set locs := rows.map (fun r => r.location) with hlocs
  have hstable : (valueCounts locs).Pairwise (fun a b : String × Nat =>
      b.2 ≤ a.2 ∧ (a.2 = b.2 → locs.indexOf a.1 < locs.indexOf b.1)) := by
    have hin : ((firstOccs locs).map (fun v => (v, locs.count v))).Pairwise
        (fun a b : String × Nat => locs.indexOf a.1 < locs.indexOf b.1) := by
      rw [List.pairwise_map]
      exact firstOccs_pairwise_indexOf
    exact @insertionSort_pairwise_stable (String × Nat) (fun p => p.2)
      (fun a b => locs.indexOf a.1 < locs.indexOf b.1) _ hin
  have hpw := List.Pairwise.sublist (List.take_sublist n _) hstable
  have hlen : (top_locations rows name n).length = min n (locs.dedup.length) := by
    simp only [top_locations, List.length_map, List.length_take]
    rw [valueCounts_length]
  have hent : ∀ e ∈ top_locations rows name n,
      e.2.2 = name ∧ e.1 ∈ locs ∧ e.2.1 = locs.count e.1 := by
    intro e he
    simp only [top_locations, List.mem_map] at he
    obtain ⟨p, hp, rfl⟩ := he
    have hm := mem_valueCounts (List.mem_of_mem_take hp)
    exact ⟨rfl, hm.1, hm.2⟩
  have hdesc : (top_locations rows name n).Pairwise (fun a b => b.2.1 ≤ a.2.1) := by
    simp only [top_locations]
    rw [List.pairwise_map]
    exact hpw.imp (fun h => h.1)
  have hties : (top_locations rows name n).Pairwise (fun a b => a.2.1 = b.2.1 →
      locs.indexOf a.1 < locs.indexOf b.1) := by
    simp only [top_locations]
    rw [List.pairwise_map]
    exact hpw.imp (fun h => h.2)
  have hnd : ((top_locations rows name n).map (fun e => e.1)).Nodup := by
    simp only [top_locations, List.map_map]
    have hcomp : ((fun e : String × Nat × String => e.1) ∘
        fun p : String × Nat => (p.1, p.2, name)) = fun p : String × Nat => p.1 := rfl
    rw [hcomp, List.map_take]
    have h := (valueCounts_perm locs).map (fun p : String × Nat => p.1)
    rw [map_fst_map_pair] at h
    exact List.Nodup.sublist (List.take_sublist n _) (h.nodup_iff.mpr firstOccs_nodup)
  exact ⟨hlen, hent, hdesc, hties, hnd⟩

/-- C5 witness, instantiated on the loaded spec scenario with n = 2. -/
theorem top_n_ranking_witness :
    (top_locations (load_data scenarioPostings) "W" 2).length =
      min 2 (((load_data scenarioPostings).map (fun r => r.location)).dedup.length) ∧
    (∀ e ∈ top_locations (load_data scenarioPostings) "W" 2,
      e.2.2 = "W" ∧ e.1 ∈ (load_data scenarioPostings).map (fun r => r.location) ∧
      e.2.1 = ((load_data scenarioPostings).map (fun r => r.location)).count e.1) ∧
    (top_locations (load_data scenarioPostings) "W" 2).Pairwise
      (fun a b => b.2.1 ≤ a.2.1) ∧
    (top_locations (load_data scenarioPostings) "W" 2).Pairwise (fun a b =>
      a.2.1 = b.2.1 →
        ((load_data scenarioPostings).map (fun r => r.location)).indexOf a.1 <
          ((load_data scenarioPostings).map (fun r => r.location)).indexOf b.1) ∧
    ((top_locations (load_data scenarioPostings) "W" 2).map (fun e => e.1)).Nodup :=
  top_n_ranking (load_data scenarioPostings) "W" 2

end HRDashboard
